import Mathlib

/-!
Verification of the Badgelink host client (`bootloader/badgelink.py`).

The protocol engine is shallowly embedded: bytes are `Nat` (0..255), the
COBS codec and zlib CRC-32 used by the frame layer are modelled from the
libraries the source imports, and the connection / transfer loops are
modelled as pure functions over explicit state with the device's replies
supplied by oracles.
-/

set_option maxRecDepth 100000

namespace Badgelink

/-! ## COBS codec (the cobs Python library used by badgelink.py) -/

/-- Modelled from the cobs library (cobs.cobs.encode): the encoder splits the
input into blocks at zero bytes, emitting a full 255-coded block after 254
consecutive non-zero bytes. The fuel argument bounds the recursion; the input
length is always sufficient fuel. -/
def cobsEncodeAux (fuel : Nat) (l : List Nat) : List Nat :=
  match fuel, l with
  | _, [] => [1]
  | 0, _ :: _ => []
  | f + 1, x :: xs =>
    let b := (x :: xs).takeWhile (fun y => y != 0)
    if 254 ≤ b.length then
      255 :: (b.take 254 ++
        (if (x :: xs).length ≤ 254 then [] else cobsEncodeAux f ((x :: xs).drop 254)))
    else
      (b.length + 1) :: (b ++
        (if (x :: xs).length ≤ b.length then [] else cobsEncodeAux f ((x :: xs).drop (b.length + 1))))

/-- cobs.encode of a byte list. -/
def cobsEncode (l : List Nat) : List Nat :=
  cobsEncodeAux l.length l

/-- Modelled from the cobs library (cobs.cobs.decode): each block is a code
byte followed by code-1 data bytes; a code below 255 implies a zero byte
between blocks; none models DecodeError (zero byte in the input or a
truncated block). -/
def cobsDecodeAux (fuel : Nat) (l : List Nat) : Option (List Nat) :=
  match fuel, l with
  | _, [] => some []
  | 0, _ :: _ => none
  | f + 1, code :: rest =>
    if code = 0 then none
    else
      let b := rest.take (code - 1)
      if b.length < code - 1 then none
      else if 0 ∈ b then none
      else
        let rest2 := rest.drop (code - 1)
        if rest2 = [] then some b
        else if code < 255 then
          (cobsDecodeAux f rest2).map (fun d => b ++ 0 :: d)
        else
          (cobsDecodeAux f rest2).map (fun d => b ++ d)

/-- cobs.decode of a byte list. -/
def cobsDecode (l : List Nat) : Option (List Nat) :=
  cobsDecodeAux l.length l

/-! ## CRC-32 (zlib.crc32 as called by badgelink.py) -/

/-- One bit step of the reflected CRC-32 with polynomial 0xEDB88320. -/
def crcBit (c : Nat) : Nat :=
  if c % 2 = 1 then (c / 2) ^^^ 0xEDB88320 else c / 2

/-- Fold one byte into the CRC-32 state: xor it in, then process 8 bits. -/
def crcByte (c b : Nat) : Nat :=
  crcBit^[8] (c ^^^ b)

/-- zlib.crc32 of a byte list (already below 2^32, so the source's mask with
0xffffffff is the identity on it). -/
def crc32 (data : List Nat) : Nat :=
  (data.foldl crcByte 0xFFFFFFFF) ^^^ 0xFFFFFFFF

/-- struct.pack of an unsigned 32-bit value, little-endian, as in send_frame. -/
def le32 (x : Nat) : List Nat :=
  [x % 256, x / 256 % 256, x / 65536 % 256, x / 16777216 % 256]

/-- struct.unpack of four little-endian bytes, as in recv_frame; other shapes
cannot reach the call site. -/
def unpackLE32 : List Nat → Nat
  | [a, b, c, d] => a + 256 * b + 65536 * c + 16777216 * d
  | _ => 0

/-- Decidable equality for Except values, so concrete runs evaluate. -/
instance instDecEqExcept {ε α : Type} [DecidableEq ε] [DecidableEq α] :
    DecidableEq (Except ε α) := fun x y =>
  match x, y with
  | .error a, .error b =>
    if h : a = b then .isTrue (by rw [h]) else .isFalse (fun hh => h (by cases hh; rfl))
  | .ok a, .ok b =>
    if h : a = b then .isTrue (by rw [h]) else .isFalse (fun hh => h (by cases hh; rfl))
  | .error _, .ok _ => .isFalse (fun hh => by cases hh)
  | .ok _, .error _ => .isFalse (fun hh => by cases hh)

/-! ## Frame codec (BadgelinkConnection.send_frame / recv_frame) -/

/-- Errors recv_frame can raise: TimeoutError, or CommunicationError with its
three distinguishable reasons. -/
inductive RecvErr
  | timeoutE
  | frameTooShort
  | cobsFail
  | crcMismatch
deriving DecidableEq

/-- BadgelinkConnection.send_frame: the exact bytes written to the transport
for a payload, namely COBS of the payload followed by its little-endian
CRC-32, then the zero delimiter byte. -/
def send_frame (payload : List Nat) : List Nat :=
  cobsEncode (payload ++ le32 (crc32 payload)) ++ [0]

/-- The rxbuf.find step of recv_frame: the bytes before the first zero byte
and the bytes after it, or none when no zero is present (the timeout path). -/
def splitAtFirstZero : List Nat → Option (List Nat × List Nat)
  | [] => none
  | x :: xs =>
    if x = 0 then some ([], xs)
    else (splitAtFirstZero xs).map (fun p => (x :: p.1, p.2))

/-- BadgelinkConnection.recv_frame after the delimiter scan: the length check
against 7, COBS decoding, and the CRC-32 comparison on the decoded bytes. -/
def decodeFrameBuf (buffer : List Nat) : Except RecvErr (List Nat) :=
  if buffer.length < 7 then .error .frameTooShort
  else
    match cobsDecode buffer with
    | none => .error .cobsFail
    | some raw =>
      let payload := raw.take (raw.length - 4)
      let eccMsg := unpackLE32 (raw.drop (raw.length - 4))
      if eccMsg ≠ crc32 payload then .error .crcMismatch
      else .ok payload

/-- BadgelinkConnection.recv_frame on a receive buffer that already holds all
bytes the transport will deliver: the result together with the buffer bytes
left for the next call. On the timeout path nothing is consumed. -/
def recv_frame (rxbuf : List Nat) : Except RecvErr (List Nat) × List Nat :=
  match splitAtFirstZero rxbuf with
  | none => (.error .timeoutE, rxbuf)
  | some (buffer, rest) => (decodeFrameBuf buffer, rest)

/-! ## Status codes and badge-reported errors (badgelink.py error classes) -/

/-- StatusCode values of the protocol schema, as matched in simple_request. -/
inductive StatusCode
  | statusOk
  | statusInternalError
  | statusMalformed
  | statusNotSupported
  | statusNotFound
  | statusIllegalState
  | statusNoSpace
  | statusNotEmpty
  | statusIsFile
  | statusIsDir
  | statusExists
deriving DecidableEq

/-- The ten BadgeError subclasses raised by simple_request for non-Ok
status codes. -/
inductive BadgeErrKind
  | internalError
  | malformedRequest
  | notSupported
  | notFound
  | illegalState
  | noSpace
  | notEmpty
  | isFile
  | isDir
  | alreadyExists
deriving DecidableEq

/-- The code attribute each BadgeError subclass passes to BadgeError.__init__.
Note IllegalStateError passes StatusNotFound (badgelink.py line 118). -/
def errCode : BadgeErrKind → StatusCode
  | .internalError => .statusInternalError
  | .malformedRequest => .statusMalformed
  | .notSupported => .statusNotSupported
  | .notFound => .statusNotFound
  | .illegalState => .statusNotFound
  | .noSpace => .statusNoSpace
  | .notEmpty => .statusNotEmpty
  | .isFile => .statusIsFile
  | .isDir => .statusIsDir
  | .alreadyExists => .statusExists

/-- The match on resp_packet.response.status_code at the end of
simple_request: none for StatusOk, otherwise the exception raised. -/
def statusToErr : StatusCode → Option BadgeErrKind
  | .statusOk => none
  | .statusInternalError => some .internalError
  | .statusMalformed => some .malformedRequest
  | .statusNotSupported => some .notSupported
  | .statusNotFound => some .notFound
  | .statusIllegalState => some .illegalState
  | .statusNoSpace => some .noSpace
  | .statusNotEmpty => some .notEmpty
  | .statusIsFile => some .isFile
  | .statusIsDir => some .isDir
  | .statusExists => some .alreadyExists

/-! ## Connection state machine (BadgelinkConnection.sync / simple_request)

The transport and message codec are abstracted: each recv_packet call is
answered by an oracle `dev : Nat → Outcome` indexed by the number of receive
calls made so far, and each random.randint call by an oracle
`rand : Nat → Nat` indexed by the number of draws so far.

Modelled from the spec: badgelink_pb2 (the message codec generated from the
repository's protobuf schema) is not under src/; per spec section 4.2 a
parsed Packet preserves the distinction between an absent field and a present
field holding default values, so the request and response fields are
modelled as options. -/

/-- A response body: only the status_code matters to the engine. -/
structure RespM where
  status : StatusCode
deriving DecidableEq

/-- A packet as seen by the connection: correlation serial, sync flag, and
the optional response body (absent on requests and sync packets). -/
structure PacketM where
  serial : Nat
  sync : Bool
  response : Option RespM
deriving DecidableEq

/-- The possible outcomes of one recv_packet call: TimeoutError,
CommunicationError (short frame, COBS failure, CRC mismatch),
DisconnectedError, or a parsed packet. -/
inductive Outcome
  | timeoutO
  | commO
  | discO
  | pktO (p : PacketM)
deriving DecidableEq

/-- The error kinds simple_request can surface to its caller. -/
inductive BLErr
  | timeoutE
  | commE
  | discE
  | malformedE
  | badgeE (k : BadgeErrKind)
deriving DecidableEq

/-- Connection state: the serial_no counter, the index of the next receive
outcome, the index of the next random draw, and the trace of packets sent on
the wire so far. -/
structure ConnSt where
  serial : Nat
  rcv : Nat
  rnd : Nat
  sent : List PacketM
deriving DecidableEq

/-- send_packet: append the packet to the wire trace. -/
def sendPkt (st : ConnSt) (p : PacketM) : ConnSt :=
  { st with sent := st.sent ++ [p] }

/-- One recv_packet call consumes one oracle outcome. -/
def recvNext (st : ConnSt) : ConnSt :=
  { st with rcv := st.rcv + 1 }

/-- The retry loop of BadgelinkConnection.sync: each attempt sends
Packet(serial=serial_no, sync=True) and waits; only TimeoutError is caught;
a reply that is not a sync with the matching serial raises
CommunicationError. Exhausting the attempts raises the last TimeoutError. -/
def syncTries (dev : Nat → Outcome) : Nat → ConnSt → ConnSt × Option BLErr
  | 0, st => (st, some .timeoutE)
  | n + 1, st =>
    let st1 := sendPkt st ⟨st.serial, true, none⟩
    let o := dev st1.rcv
    let st2 := recvNext st1
    match o with
    | .timeoutO => syncTries dev n st2
    | .commO => (st2, some .commE)
    | .discO => (st2, some .discE)
    | .pktO p =>
      if p.sync = true ∧ p.serial = st2.serial then (st2, none)
      else (st2, some .commE)

/-- BadgelinkConnection.sync: draw one random serial_no before the attempt
loop, then run up to `tries` attempts with it. -/
def sync (dev : Nat → Outcome) (rand : Nat → Nat) (tries : Nat) (st : ConnSt) :
    ConnSt × Option BLErr :=
  syncTries dev tries { st with serial := rand st.rnd, rnd := st.rnd + 1 }

/-- The retry loop of simple_request: each iteration rebuilds the request
packet from the current serial_no and sends it; a timeout is recorded and
retried; a received sync packet triggers a full sync (whose TimeoutError is
caught by the same handler, other errors propagate); a non-sync packet breaks
out of the loop. `lastT` records whether a TimeoutError is pending and `last`
the request serial and response packet of the most recent receiving
iteration, used when the loop exhausts without a pending timeout. -/
def reqTries (dev : Nat → Outcome) (rand : Nat → Nat) :
    Nat → Bool → Option (Nat × PacketM) → ConnSt → ConnSt × Except BLErr (Nat × PacketM)
  | 0, lastT, last, st =>
    (st, if lastT then .error .timeoutE
      else match last with
        | some pr => .ok pr
        | none => .error .timeoutE)
  | n + 1, lastT, last, st =>
    let st1 := sendPkt st ⟨st.serial, false, none⟩
    let o := dev st1.rcv
    let st2 := recvNext st1
    match o with
    | .timeoutO => reqTries dev rand n true last st2
    | .commO => (st2, .error .commE)
    | .discO => (st2, .error .discE)
    | .pktO p =>
      if p.sync then
        match sync dev rand 3 st2 with
        | (st3, none) => reqTries dev rand n lastT (some (st1.serial, p)) st3
        | (st3, some .timeoutE) => reqTries dev rand n true (some (st1.serial, p)) st3
        | (st3, some e) => (st3, .error e)
      else (st2, .ok (st1.serial, p))

/-- The response checks at the end of simple_request, which read but never
change the connection state: the serial comparison (CommunicationError on
mismatch), the response presence check (MalformedResponseError when absent),
and the status-code mapping. -/
def checkResponse : Except BLErr (Nat × PacketM) → Except BLErr RespM
  | .error e => .error e
  | .ok (reqSerial, resp) =>
    if resp.serial ≠ reqSerial then .error .commE
    else
      match resp.response with
      | none => .error .malformedE
      | some r =>
        match statusToErr r.status with
        | none => .ok r
        | some k => .error (.badgeE k)

/-- BadgelinkConnection.simple_request: pre-increment serial_no modulo 2^32,
run the retry loop, then run the response checks on its outcome. -/
def simple_request (dev : Nat → Outcome) (rand : Nat → Nat) (tries : Nat)
    (st : ConnSt) : ConnSt × Except BLErr RespM :=
  let r := reqTries dev rand tries false none
    { st with serial := (st.serial + 1) % 4294967296 }
  (r.1, checkResponse r.2)

/-! ## Bulk upload (Badgelink.appfs_upload / Badgelink.fs_upload) -/

/-- Badgelink.CHUNK_MAX_SIZE. -/
def CHUNK_MAX_SIZE : Nat := 4096

/-- The data-phase chunks of an upload: for pos in range(0, size,
CHUNK_MAX_SIZE), the chunk at absolute position pos holds the next
fd.read(CHUNK_MAX_SIZE) bytes of the file. -/
def uploadChunkList (file : List Nat) : List (Nat × List Nat) :=
  (List.range' 0 ((file.length + (CHUNK_MAX_SIZE - 1)) / CHUNK_MAX_SIZE) CHUNK_MAX_SIZE).map
    (fun pos => (pos, (file.drop pos).take CHUNK_MAX_SIZE))

/-- The requests an upload issues, in order: the initiating upload request
with the file size and CRC-32, one Chunk request per data chunk, and the
final xfer_ctrl = Finish request. -/
inductive UploadMsg
  | initMsg (size : Nat) (ecc : Nat)
  | chunkMsg (position : Nat) (data : List Nat)
  | finishMsg
deriving DecidableEq

/-- The full request sequence of appfs_upload / fs_upload for a file. -/
def uploadMsgs (file : List Nat) : List UploadMsg :=
  .initMsg file.length (crc32 file) ::
    ((uploadChunkList file).map (fun c => .chunkMsg c.1 c.2) ++ [.finishMsg])

/-- Sequential simple_request calls: the device answers the i-th request with
status dev i; the first non-Ok status raises and aborts the sequence. Returns
the requests actually sent and the surfaced error status, if any. -/
def sendAll (dev : Nat → StatusCode) : List UploadMsg → Nat → List UploadMsg × Option StatusCode
  | [], _ => ([], none)
  | m :: ms, i =>
    if dev i = .statusOk then
      let r := sendAll dev ms (i + 1)
      (m :: r.1, r.2)
    else ([m], some (dev i))

/-- appfs_upload / fs_upload as a whole: send the initiation, the chunks and
the finish in order, stopping at the first device-reported error. -/
def uploadRun (file : List Nat) (dev : Nat → StatusCode) : List UploadMsg × Option StatusCode :=
  sendAll dev (uploadMsgs file) 0

/-! ## Bulk download (Badgelink.appfs_download / Badgelink.fs_download) -/

/-- How a download loop can fail: a chunk position mismatch raises
MalformedResponseError("Incorrect chunk position"); an exhausted oracle
stands for a device that never answers the pending Continue request. -/
inductive DlErr
  | badPosition
  | noReply
deriving DecidableEq

/-- Result of a download loop: the bytes written to the local file, the error
raised if any, and whether the final xfer_ctrl = Finish request was sent. -/
structure DlRun where
  written : List Nat
  err : Option DlErr
  fin : Bool
deriving DecidableEq

/-- The download loop: while pos < size, request xfer_ctrl = Continue and
receive the next chunk from the device oracle; raise on a position mismatch
before writing anything of that chunk; otherwise write the data and advance
pos by its length. On loop exit send Finish. -/
def dlLoop (size : Nat) : List (Nat × List Nat) → Nat → DlRun
  | chunks, pos =>
    if size ≤ pos then ⟨[], none, true⟩
    else
      match chunks with
      | [] => ⟨[], some .noReply, false⟩
      | (p, d) :: rest =>
        if p = pos then
          let r := dlLoop size rest (pos + d.length)
          ⟨d ++ r.written, r.err, r.fin⟩
        else ⟨[], some .badPosition, false⟩

/-! ## Paginated list traversal (Badgelink.nvs_list / fs_list / appfs_list) -/

/-- The while-True loop shared by nvs_list and fs_list: the device is a
function from the requested list_offset to the page (entries, total); the
loop accumulates a page, advances the offset by the page length, and stops
once offset reaches the total reported by the current page. Fuel bounds the
number of iterations; none means the fuel ran out before the loop stopped. -/
def listLoopF (dev : Nat → List Nat × Nat) : Nat → Nat → Option (List Nat)
  | 0, _ => none
  | fuel + 1, off =>
    let page := dev off
    let off2 := off + page.1.length
    if page.2 ≤ off2 then some page.1
    else (listLoopF dev fuel off2).map (fun out => page.1 ++ out)

/-- The while-loop of appfs_list: the continuation condition compares the
collected count against the total reported by the most recent response,
before issuing the next request at list_offset = collected count. -/
def appfsLoopF (dev : Nat → List Nat × Nat) : Nat → List Nat → Nat → Option (List Nat)
  | 0, acc, tot => if tot ≤ acc.length then some acc else none
  | fuel + 1, acc, tot =>
    if tot ≤ acc.length then some acc
    else appfsLoopF dev fuel (acc ++ (dev acc.length).1) (dev acc.length).2

/-- Badgelink.appfs_list: one unconditional first request (list_offset
defaults to 0), then the while-loop. -/
def appfs_list_run (dev : Nat → List Nat × Nat) (fuel : Nat) : Option (List Nat) :=
  appfsLoopF dev fuel (dev 0).1 (dev 0).2

/-! ## Concrete oracles for the closed counterexample and witness runs -/

/-- A device that never answers: every recv_packet call times out. -/
def devTimeout : Nat → Outcome := fun _ => .timeoutO

/-- A randomness oracle whose every draw is 5. -/
def randFive : Nat → Nat := fun _ => 5

/-- A randomness oracle whose every draw is 999. -/
def randBig : Nat → Nat := fun _ => 999

/-- Receive outcomes for the resync counterexample run: an unsolicited sync
packet, then a valid sync reply for serial 999, then an Ok response packet
with serial 999. -/
def devResync : Nat → Outcome
  | 0 => .pktO ⟨0, true, none⟩
  | 1 => .pktO ⟨999, true, none⟩
  | 2 => .pktO ⟨999, false, some ⟨.statusOk⟩⟩
  | _ => .timeoutO

/-- Receive outcomes for the resync witness run: the same shape as devResync
but with serial counters starting from a different state. -/
def devResyncW : Nat → Outcome
  | 0 => .pktO ⟨77, true, none⟩
  | 1 => .pktO ⟨5, true, none⟩
  | 2 => .pktO ⟨5, false, some ⟨.statusOk⟩⟩
  | _ => .timeoutO

/-- A device whose first answer is a CommunicationError from recv_packet. -/
def devComm : Nat → Outcome := fun _ => .commO

/-- A device whose first answer is a NoSpace response to a request with
serial 8 (used with a connection whose serial_no counter is at 7). -/
def devNoSpace : Nat → Outcome := fun _ => .pktO ⟨8, false, some ⟨.statusNoSpace⟩⟩

/-- A device whose first answer is a well-framed reply with serial 8 and the
response field absent. -/
def devNoResp : Nat → Outcome := fun _ => .pktO ⟨8, false, none⟩

/-- A device whose first answer is a well-framed Ok reply with serial 8. -/
def devOk : Nat → Outcome := fun _ => .pktO ⟨8, false, some ⟨.statusOk⟩⟩

/-- A paginating device: total 5, one entry per page at every offset. -/
def devPages : Nat → List Nat × Nat := fun off => ([off], 5)

/-- A stuck paginating device: total 5 but every page is empty. -/
def devEmptyPage : Nat → List Nat × Nat := fun _ => ([], 5)

/-- Upload statuses for the witness run: NoSpace on the third request (the
second chunk), Ok otherwise. -/
def devUpNoSpace : Nat → StatusCode := fun i => if i = 2 then .statusNoSpace else .statusOk

/-- Upload statuses: every request acknowledged Ok. -/
def devUpOk : Nat → StatusCode := fun _ => .statusOk

/-! ## COBS codec lemmas -/

/-- Sanity check of the COBS model against known test vectors of the cobs
library. -/
theorem cobs_model_vectors :
    cobsEncode [] = [1] ∧ cobsEncode [0] = [1, 1] ∧
    cobsEncode [0, 0, 0, 0] = [1, 1, 1, 1, 1] ∧
    cobsEncode [17, 34, 51] = [4, 17, 34, 51] ∧
    cobsEncode [17, 0, 51] = [2, 17, 2, 51] ∧
    cobsDecode [4, 17, 34, 51] = some [17, 34, 51] ∧
    cobsDecode [2, 17, 2, 51] = some [17, 0, 51] ∧
    cobsDecode [1, 1, 1, 1, 1] = some [0, 0, 0, 0] := by decide

/-- Sanity check of the CRC-32 model: the checksum of the empty input is 0
and the checksum of the ASCII digits 1 to 9 is the standard check value. -/
theorem crc32_model_vectors :
    crc32 [] = 0 ∧
    crc32 [49, 50, 51, 52, 53, 54, 55, 56, 57] = 0xCBF43926 := by decide

theorem cobsEncodeAux_nil (f : Nat) : cobsEncodeAux f [] = [1] := by
  cases f <;> rfl

theorem cobsEncodeAux_succ (f x : Nat) (xs : List Nat) :
    cobsEncodeAux (f + 1) (x :: xs) =
      (let b := (x :: xs).takeWhile (fun y => y != 0)
       if 254 ≤ b.length then
         255 :: (b.take 254 ++
           (if (x :: xs).length ≤ 254 then [] else cobsEncodeAux f ((x :: xs).drop 254)))
       else
         (b.length + 1) :: (b ++
           (if (x :: xs).length ≤ b.length then []
            else cobsEncodeAux f ((x :: xs).drop (b.length + 1))))) := rfl

theorem cobsDecodeAux_nil (g : Nat) : cobsDecodeAux g [] = some [] := by
  cases g <;> rfl

theorem cobsDecodeAux_succ (g code : Nat) (rest : List Nat) :
    cobsDecodeAux (g + 1) (code :: rest) =
      (if code = 0 then none
       else
         let b := rest.take (code - 1)
         if b.length < code - 1 then none
         else if 0 ∈ b then none
         else
           let rest2 := rest.drop (code - 1)
           if rest2 = [] then some b
           else if code < 255 then
             (cobsDecodeAux g rest2).map (fun d => b ++ 0 :: d)
           else
             (cobsDecodeAux g rest2).map (fun d => b ++ d)) := rfl

theorem mem_takeWhile_nz {l : List Nat} {x : Nat}
    (h : x ∈ l.takeWhile (fun y => y != 0)) : x ≠ 0 := by
  have h2 := List.mem_takeWhile_imp h
  simpa using h2

theorem takeWhile_nz_length_le (l : List Nat) :
    (l.takeWhile (fun y => y != 0)).length ≤ l.length :=
  (List.takeWhile_sublist _).length_le

theorem takeWhile_nz_eq_self {l : List Nat}
    (h : (l.takeWhile (fun y => y != 0)).length = l.length) :
    l.takeWhile (fun y => y != 0) = l :=
  (List.takeWhile_sublist _).eq_of_length h

theorem takeWhile_nz_structure (l : List Nat) :
    (l.takeWhile (fun y => y != 0)).length = l.length ∨
    l = l.takeWhile (fun y => y != 0) ++
        0 :: l.drop ((l.takeWhile (fun y => y != 0)).length + 1) := by
  induction l with
  | nil => left; rfl
  | cons a as ih =>
    by_cases ha : a = 0
    · right
      subst ha
      simp [List.takeWhile_cons]
    · have hb : (a != 0) = true := by simpa using ha
      rcases ih with h | h
      · left
        simp [List.takeWhile_cons, hb, h]
      · right
        simp only [List.takeWhile_cons, hb, if_true, List.length_cons,
          List.drop_succ_cons, List.cons_append, List.cons.injEq, true_and]
        exact h

theorem cobsEncodeAux_ne_nil (f : Nat) (l : List Nat) (hf : l.length ≤ f) :
    cobsEncodeAux f l ≠ [] := by
  cases l with
  | nil => rw [cobsEncodeAux_nil]; simp
  | cons x xs =>
    cases f with
    | zero => simp at hf
    | succ f =>
      rw [cobsEncodeAux_succ]
      by_cases hb : 254 ≤ ((x :: xs).takeWhile (fun y => y != 0)).length <;>
        simp [hb]

theorem cobsEncodeAux_length (n : Nat) :
    ∀ (f : Nat) (l : List Nat), l.length ≤ n → l.length ≤ f →
      l.length + 1 ≤ (cobsEncodeAux f l).length := by
  induction n with
  | zero =>
    intro f l hn _
    have hl : l = [] := List.length_eq_zero.mp (Nat.le_zero.mp hn)
    subst hl
    rw [cobsEncodeAux_nil]
    simp
  | succ n ih =>
    intro f l hn hf
    cases l with
    | nil => rw [cobsEncodeAux_nil]; simp
    | cons x xs =>
      cases f with
      | zero => simp at hf
      | succ f =>
        rw [cobsEncodeAux_succ]
        have hble := takeWhile_nz_length_le (x :: xs)
        by_cases hb : 254 ≤ ((x :: xs).takeWhile (fun y => y != 0)).length
        · by_cases hsmall : (x :: xs).length ≤ 254
          · simp only [hb, if_true, hsmall, List.append_nil]
            simp only [List.length_cons, List.length_take] at *
            omega
          · have hrec := ih f ((x :: xs).drop 254)
              (by simp only [List.length_drop]; omega)
              (by simp only [List.length_drop]; omega)
            simp only [hb, if_true, hsmall, if_false]
            simp only [List.length_cons, List.length_append, List.length_take,
              List.length_drop] at *
            omega
        · by_cases hend : (x :: xs).length ≤ ((x :: xs).takeWhile (fun y => y != 0)).length
          · simp only [hb, if_false, hend, if_true, List.append_nil]
            simp only [List.length_cons] at *
            omega
          · have hrec := ih f
              ((x :: xs).drop (((x :: xs).takeWhile (fun y => y != 0)).length + 1))
              (by simp only [List.length_drop]; omega)
              (by simp only [List.length_drop]; omega)
            simp only [hb, if_false, hend]
            simp only [List.length_cons, List.length_append, List.length_drop] at *
            omega

theorem cobsEncode_length (l : List Nat) :
    l.length + 1 ≤ (cobsEncode l).length :=
  cobsEncodeAux_length l.length l.length l (le_refl _) (le_refl _)

theorem cobsEncodeAux_ne_zero (n : Nat) :
    ∀ (f : Nat) (l : List Nat), l.length ≤ n → l.length ≤ f →
      ∀ y ∈ cobsEncodeAux f l, y ≠ 0 := by
  induction n with
  | zero =>
    intro f l hn _ y hy
    have hl : l = [] := List.length_eq_zero.mp (Nat.le_zero.mp hn)
    subst hl
    rw [cobsEncodeAux_nil] at hy
    simp at hy
    omega
  | succ n ih =>
    intro f l hn hf y hy
    cases l with
    | nil =>
      rw [cobsEncodeAux_nil] at hy
      simp at hy
      omega
    | cons x xs =>
      cases f with
      | zero => simp at hf
      | succ f =>
        rw [cobsEncodeAux_succ] at hy
        have hble := takeWhile_nz_length_le (x :: xs)
        by_cases hb : 254 ≤ ((x :: xs).takeWhile (fun y => y != 0)).length
        · by_cases hsmall : (x :: xs).length ≤ 254
          · simp only [hb, if_true, hsmall, List.append_nil, List.mem_cons] at hy
            rcases hy with hy | hy
            · omega
            · exact mem_takeWhile_nz (List.mem_of_mem_take hy)
          · simp only [hb, if_true, hsmall, if_false, List.mem_cons,
              List.mem_append] at hy
            rcases hy with hy | hy | hy
            · omega
            · exact mem_takeWhile_nz (List.mem_of_mem_take hy)
            · exact ih f _ (by simp only [List.length_drop]; omega)
                (by simp only [List.length_drop]; omega) y hy
        · by_cases hend : (x :: xs).length ≤ ((x :: xs).takeWhile (fun y => y != 0)).length
          · simp only [hb, if_false, hend, if_true, List.append_nil,
              List.mem_cons] at hy
            rcases hy with hy | hy
            · omega
            · exact mem_takeWhile_nz hy
          · simp only [hb, if_false, hend, List.mem_cons, List.mem_append] at hy
            rcases hy with hy | hy | hy
            · omega
            · exact mem_takeWhile_nz hy
            · exact ih f _ (by simp only [List.length_drop]; omega)
                (by simp only [List.length_drop]; omega) y hy

theorem cobsEncode_ne_zero (l : List Nat) : ∀ y ∈ cobsEncode l, y ≠ 0 :=
  cobsEncodeAux_ne_zero l.length l.length l (le_refl _) (le_refl _)

theorem takeWhile_nz_take : ∀ (l : List Nat) (k : Nat),
    k ≤ (l.takeWhile (fun y => y != 0)).length →
    (l.takeWhile (fun y => y != 0)).take k = l.take k := by
  intro l
  induction l with
  | nil => intro k _; rfl
  | cons a as ih =>
    intro k hk
    by_cases ha : a = 0
    · subst ha
      simp only [List.takeWhile_cons] at hk ⊢
      norm_num at hk ⊢
      omega
    · have hb : (a != 0) = true := by simpa using ha
      simp only [List.takeWhile_cons, hb, if_true] at hk ⊢
      cases k with
      | zero => rfl
      | succ k =>
        simp only [List.take_succ_cons, List.length_cons] at hk ⊢
        rw [ih k (by omega)]

/-- Decoding one COBS block: a valid code byte followed by its zero-free data
bytes and an arbitrary tail decodes blockwise. -/
theorem cobsDecodeAux_block (g : Nat) (bdata tail : List Nat) (code : Nat)
    (hnz : ∀ y ∈ bdata, y ≠ 0)
    (hcode : code = bdata.length + 1 ∨ (code = 255 ∧ bdata.length = 254)) :
    cobsDecodeAux (g + 1) (code :: (bdata ++ tail)) =
      (if tail = [] then some bdata
       else if code < 255 then (cobsDecodeAux g tail).map (fun d => bdata ++ 0 :: d)
       else (cobsDecodeAux g tail).map (fun d => bdata ++ d)) := by
  have hcne : ¬(code = 0) := by rcases hcode with h | ⟨h1, h2⟩ <;> omega
  have hc1 : code - 1 = bdata.length := by rcases hcode with h | ⟨h1, h2⟩ <;> omega
  have h0 : ¬(0 ∈ bdata) := fun h => (hnz 0 h) rfl
  rw [cobsDecodeAux_succ, if_neg hcne]
  simp only [hc1, List.take_left, List.drop_left, Nat.lt_irrefl, if_false, h0]

theorem cobs_roundtrip_aux (n : Nat) :
    ∀ (f g : Nat) (l : List Nat), l.length ≤ n → l.length ≤ f →
      (cobsEncodeAux f l).length ≤ g →
      cobsDecodeAux g (cobsEncodeAux f l) = some l := by
  induction n with
  | zero =>
    intro f g l hn _ hg
    have hl : l = [] := List.length_eq_zero.mp (Nat.le_zero.mp hn)
    subst hl
    rw [cobsEncodeAux_nil] at hg ⊢
    cases g with
    | zero => simp at hg
    | succ g =>
      have h := cobsDecodeAux_block g [] [] 1 (by simp) (Or.inl (by simp))
      simpa using h
  | succ n ih =>
    intro f g l hn hf hg
    cases l with
    | nil =>
      rw [cobsEncodeAux_nil] at hg ⊢
      cases g with
      | zero => simp at hg
      | succ g =>
        have h := cobsDecodeAux_block g [] [] 1 (by simp) (Or.inl (by simp))
        simpa using h
    | cons x xs =>
      cases f with
      | zero => simp at hf
      | succ f =>
        have hble := takeWhile_nz_length_le (x :: xs)
        rw [cobsEncodeAux_succ] at hg ⊢
        by_cases hb : 254 ≤ ((x :: xs).takeWhile (fun y => y != 0)).length
        · simp only [hb, if_true] at hg ⊢
          have htlen : (((x :: xs).takeWhile (fun y => y != 0)).take 254).length = 254 := by
            simp only [List.length_take]; omega
          have hnzt : ∀ y ∈ ((x :: xs).takeWhile (fun y => y != 0)).take 254, y ≠ 0 :=
            fun y hy => mem_takeWhile_nz (List.mem_of_mem_take hy)
          have hg1 : 1 ≤ g := by
            simp only [List.length_cons] at hg; omega
          obtain ⟨g, rfl⟩ : ∃ g2, g = g2 + 1 := ⟨g - 1, by omega⟩
          rw [cobsDecodeAux_block g _ _ 255 hnzt (Or.inr ⟨rfl, htlen⟩)]
          by_cases hsmall : (x :: xs).length ≤ 254
          · simp only [hsmall, if_true]
            rw [takeWhile_nz_take _ 254 (by omega), List.take_of_length_le hsmall]
          · simp only [hsmall, if_false] at hg ⊢
            have hne : cobsEncodeAux f ((x :: xs).drop 254) ≠ [] :=
              cobsEncodeAux_ne_nil f _ (by simp only [List.length_drop]; omega)
            rw [if_neg hne, if_neg (by omega)]
            have hrec : cobsDecodeAux g (cobsEncodeAux f ((x :: xs).drop 254)) =
                some ((x :: xs).drop 254) := by
              apply ih f g
              · simp only [List.length_drop]
                simp only [List.length_cons] at hn ⊢
                omega
              · simp only [List.length_drop]
                simp only [List.length_cons] at hf ⊢
                omega
              · simp only [List.length_cons, List.length_append, htlen] at hg
                omega
            rw [hrec]
            simp only [Option.map_some']
            rw [takeWhile_nz_take _ 254 (by omega), List.take_append_drop]
        · simp only [hb, if_false] at hg ⊢
          have hg1 : 1 ≤ g := by
            simp only [List.length_cons] at hg; omega
          obtain ⟨g, rfl⟩ : ∃ g2, g = g2 + 1 := ⟨g - 1, by omega⟩
          rw [cobsDecodeAux_block g _ _ _ (fun y hy => mem_takeWhile_nz hy) (Or.inl rfl)]
          by_cases hend : (x :: xs).length ≤ ((x :: xs).takeWhile (fun y => y != 0)).length
          · simp only [hend, if_true]
            rw [takeWhile_nz_eq_self (by omega)]
          · simp only [hend, if_false] at hg ⊢
            have hne : cobsEncodeAux f
                ((x :: xs).drop (((x :: xs).takeWhile (fun y => y != 0)).length + 1)) ≠ [] :=
              cobsEncodeAux_ne_nil f _ (by simp only [List.length_drop]; omega)
            rw [if_neg hne, if_pos (by omega)]
            have hrec : cobsDecodeAux g (cobsEncodeAux f
                ((x :: xs).drop (((x :: xs).takeWhile (fun y => y != 0)).length + 1))) =
                some ((x :: xs).drop (((x :: xs).takeWhile (fun y => y != 0)).length + 1)) := by
              apply ih f g
              · simp only [List.length_drop]
                simp only [List.length_cons] at hn ⊢
                omega
              · simp only [List.length_drop]
                simp only [List.length_cons] at hf ⊢
                omega
              · simp only [List.length_cons, List.length_append] at hg
                omega
            rw [hrec]
            simp only [Option.map_some']
            rcases takeWhile_nz_structure (x :: xs) with h | h
            · omega
            · exact congrArg some h.symm

/-- decode of encode is the identity: cobs.decode inverts cobs.encode. -/
theorem cobs_roundtrip (l : List Nat) : cobsDecode (cobsEncode l) = some l :=
  cobs_roundtrip_aux l.length l.length (cobsEncode l).length l (le_refl _)
    (le_refl _) (le_refl _)

/-! ## CRC-32 and frame codec lemmas -/

theorem crcBit_lt {c : Nat} (h : c < 4294967296) : crcBit c < 4294967296 := by
  unfold crcBit
  split
  · have h1 : c / 2 < 2 ^ 32 := by omega
    have h2 : (0xEDB88320 : Nat) < 2 ^ 32 := by norm_num
    have := Nat.xor_lt_two_pow h1 h2
    omega
  · omega

theorem crcBit_iter_lt (k : Nat) : ∀ {c : Nat}, c < 4294967296 →
    crcBit^[k] c < 4294967296 := by
  induction k with
  | zero => intro c h; simpa using h
  | succ k ih =>
    intro c h
    rw [Function.iterate_succ_apply]
    exact ih (crcBit_lt h)

theorem crcByte_lt {c b : Nat} (hc : c < 4294967296) (hb : b < 256) :
    crcByte c b < 4294967296 := by
  unfold crcByte
  apply crcBit_iter_lt
  have h1 : c < 2 ^ 32 := by omega
  have h2 : b < 2 ^ 32 := by omega
  have := Nat.xor_lt_two_pow h1 h2
  omega

theorem foldl_crcByte_lt : ∀ (data : List Nat) (init : Nat), init < 4294967296 →
    (∀ y ∈ data, y < 256) → data.foldl crcByte init < 4294967296 := by
  intro data
  induction data with
  | nil => intro init h _; simpa using h
  | cons a as ih =>
    intro init h hmem
    simp only [List.foldl_cons]
    exact ih _ (crcByte_lt h (hmem a (by simp))) (fun y hy => hmem y (by simp [hy]))

theorem crc32_lt (data : List Nat) (hb : ∀ y ∈ data, y < 256) :
    crc32 data < 4294967296 := by
  unfold crc32
  have h1 : data.foldl crcByte 0xFFFFFFFF < 2 ^ 32 := by
    have := foldl_crcByte_lt data 0xFFFFFFFF (by norm_num) hb
    omega
  have h2 : (0xFFFFFFFF : Nat) < 2 ^ 32 := by norm_num
  have := Nat.xor_lt_two_pow h1 h2
  omega

theorem unpackLE32_le32 {c : Nat} (h : c < 4294967296) : unpackLE32 (le32 c) = c := by
  simp only [le32, unpackLE32]
  omega

theorem splitAtFirstZero_append : ∀ (l r : List Nat), (∀ y ∈ l, y ≠ 0) →
    splitAtFirstZero (l ++ 0 :: r) = some (l, r) := by
  intro l
  induction l with
  | nil => intro r _; simp [splitAtFirstZero]
  | cons a as ih =>
    intro r h
    have ha : ¬(a = 0) := h a (by simp)
    simp [splitAtFirstZero, ha, ih r (fun y hy => h y (by simp [hy]))]

/-- Frame codec round-trip on the wire for payloads of at least two bytes:
the receiver consumes exactly the frame send_frame produced and returns the
payload. -/
theorem recv_frame_send_frame (p : List Nat) (h2 : 2 ≤ p.length)
    (hb : ∀ y ∈ p, y < 256) :
    recv_frame (send_frame p) = (.ok p, []) := by
  have hlen := cobsEncode_length (p ++ le32 (crc32 p))
  have hlen2 : (p ++ le32 (crc32 p)).length = p.length + 4 := by simp [le32]
  have h7 : ¬((cobsEncode (p ++ le32 (crc32 p))).length < 7) := by omega
  have ht : (p ++ le32 (crc32 p)).length - 4 = p.length := by omega
  have hdec : decodeFrameBuf (cobsEncode (p ++ le32 (crc32 p))) = .ok p := by
    simp only [decodeFrameBuf, h7, if_false, cobs_roundtrip, ht, List.take_left,
      List.drop_left, unpackLE32_le32 (crc32_lt p hb), ne_eq, not_true_eq_false,
      ite_false]
  unfold send_frame recv_frame
  rw [splitAtFirstZero_append _ _ (cobsEncode_ne_zero _)]
  simp only [hdec]

/-! ## Claim C1: frame codec round-trip -/

/-- C1 counterexample: send_frame of the empty payload puts 5 bytes on the
wire before the delimiter, and of a 1-byte payload 6 bytes; recv_frame
rejects both as too short instead of round-tripping them, refuting the claim
for payload lengths 0 and 1. -/
theorem c1_roundtrip_counterexample :
    (recv_frame (send_frame [])).fst = .error .frameTooShort ∧
    (recv_frame (send_frame [])).fst ≠ .ok [] ∧
    (recv_frame (send_frame [17])).fst = .error .frameTooShort ∧
    (recv_frame (send_frame [17])).fst ≠ .ok [17] ∧
    (send_frame []).length = 6 ∧ (send_frame [17]).length = 7 := by decide

/-- C1 amended: for every payload of at least two bytes, receiving the frame
produced by send_frame returns exactly that payload and consumes the whole
frame; payloads of length 0 or 1 are rejected by the 7-byte minimum wire
length check in recv_frame. -/
theorem c1_roundtrip_amended (p : List Nat) (h2 : 2 ≤ p.length)
    (hb : ∀ y ∈ p, y < 256) :
    recv_frame (send_frame p) = (.ok p, []) :=
  recv_frame_send_frame p h2 hb

theorem c1_roundtrip_amended_witness :
    (2 ≤ [17, 34, 51].length ∧ (∀ y ∈ [17, 34, 51], y < 256)) ∧
    recv_frame (send_frame [17, 34, 51]) = (.ok [17, 34, 51], []) :=
  ⟨⟨by decide, by decide⟩, c1_roundtrip_amended [17, 34, 51] (by decide) (by decide)⟩

/-! ## Claim C7: delimiter resynchronisation -/

/-- C7 counterexample: with a receive buffer holding one 0x00 delimiter byte
followed by a valid frame, recv_frame does not discard the leading zero: it
consumes it as an empty frame and fails with CommunicationError("Frame is too
short"); the valid frame is only returned by the next call. -/
theorem c7_leading_zero_counterexample :
    (recv_frame (0 :: send_frame [17, 34, 51])).fst = .error .frameTooShort ∧
    (recv_frame (0 :: send_frame [17, 34, 51])).fst ≠ .ok [17, 34, 51] ∧
    (recv_frame ((recv_frame (0 :: send_frame [17, 34, 51])).snd)).fst =
      .ok [17, 34, 51] := by decide

/-- C7 amended: recv_frame extracts the bytes up to the first 0x00; a buffer
beginning with a delimiter byte yields an empty segment that is consumed and
rejected as too short (a CommunicationError), so the valid frame that follows
is returned by the next call rather than within the same call. -/
theorem c7_leading_zero_amended (p : List Nat) (h2 : 2 ≤ p.length)
    (hb : ∀ y ∈ p, y < 256) :
    recv_frame (0 :: send_frame p) = (.error .frameTooShort, send_frame p) ∧
    recv_frame (send_frame p) = (.ok p, []) :=
  ⟨rfl, recv_frame_send_frame p h2 hb⟩

theorem c7_leading_zero_amended_witness :
    (2 ≤ [9, 9].length ∧ (∀ y ∈ [9, 9], y < 256)) ∧
    (recv_frame (0 :: send_frame [9, 9]) = (.error .frameTooShort, send_frame [9, 9]) ∧
     recv_frame (send_frame [9, 9]) = (.ok [9, 9], [])) :=
  ⟨⟨by decide, by decide⟩, c7_leading_zero_amended [9, 9] (by decide) (by decide)⟩

/-! ## Connection state machine lemmas -/

theorem syncTries_all_timeout (dev : Nat → Outcome) (h : ∀ i, dev i = .timeoutO) :
    ∀ (n : Nat) (st : ConnSt),
      syncTries dev n st =
        ({ st with
            rcv := st.rcv + n,
            sent := st.sent ++ List.replicate n ⟨st.serial, true, none⟩ }, some .timeoutE) := by
  intro n
  induction n with
  | zero => intro st; simp [syncTries]
  | succ n ih =>
    intro st
    rw [syncTries]
    simp only [sendPkt, recvNext, h]
    rw [ih]
    have harith : st.rcv + 1 + n = st.rcv + (n + 1) := by omega
    simp [harith, List.replicate_succ]

theorem syncTries_serials (dev : Nat → Outcome) :
    ∀ (n : Nat) (st : ConnSt), ∃ k,
      (syncTries dev n st).1.sent =
        st.sent ++ List.replicate k ⟨st.serial, true, none⟩ := by
  intro n
  induction n with
  | zero => intro st; exact ⟨0, by simp [syncTries]⟩
  | succ n ih =>
    intro st
    rw [syncTries]
    cases hdev : dev (sendPkt st ⟨st.serial, true, none⟩).rcv with
    | timeoutO =>
      dsimp only
      obtain ⟨k, hk⟩ := ih (recvNext (sendPkt st ⟨st.serial, true, none⟩))
      refine ⟨k + 1, ?_⟩
      rw [hk]
      simp [recvNext, sendPkt, List.replicate_succ]
    | commO => dsimp only; exact ⟨1, by simp [recvNext, sendPkt]⟩
    | discO => dsimp only; exact ⟨1, by simp [recvNext, sendPkt]⟩
    | pktO p =>
      dsimp only
      refine ⟨1, ?_⟩
      by_cases hc : p.sync = true ∧ p.serial = (recvNext (sendPkt st ⟨st.serial, true, none⟩)).serial
      · rw [if_pos hc]
        simp [recvNext, sendPkt]
      · rw [if_neg hc]
        simp [recvNext, sendPkt]

theorem sync_serials (dev : Nat → Outcome) (rand : Nat → Nat) (tries : Nat) (st : ConnSt) :
    ∀ p ∈ ((sync dev rand tries st).1.sent).drop st.sent.length,
      p = ⟨rand st.rnd, true, none⟩ := by
  intro p hp
  obtain ⟨k, hk⟩ := syncTries_serials dev tries { st with serial := rand st.rnd, rnd := st.rnd + 1 }
  unfold sync at hp
  rw [hk] at hp
  simp only [List.drop_left] at hp
  exact List.eq_of_mem_replicate hp

theorem sync_sent_mono (dev : Nat → Outcome) (rand : Nat → Nat) (tries : Nat) (st : ConnSt) :
    ∃ ext, (sync dev rand tries st).1.sent = st.sent ++ ext := by
  obtain ⟨k, hk⟩ := syncTries_serials dev tries { st with serial := rand st.rnd, rnd := st.rnd + 1 }
  exact ⟨_, hk⟩

/-- BadgelinkConnection.sync succeeding on its first attempt: the device
answers the first sync packet with a valid sync reply for the drawn serial. -/
theorem sync_first_ok (dev : Nat → Outcome) (rand : Nat → Nat) (st : ConnSt)
    (q : PacketM) (hq : dev st.rcv = .pktO q) (hsync : q.sync = true)
    (hser : q.serial = rand st.rnd) :
    sync dev rand 3 st =
      ({ st with
          serial := rand st.rnd, rnd := st.rnd + 1, rcv := st.rcv + 1,
          sent := st.sent ++ [⟨rand st.rnd, true, none⟩] }, none) := by
  unfold sync
  rw [syncTries]
  simp only [sendPkt, recvNext, hq]
  simp [hsync, hser]

theorem reqTries_all_timeout (dev : Nat → Outcome) (rand : Nat → Nat)
    (h : ∀ i, dev i = .timeoutO) :
    ∀ (n : Nat) (lastT : Bool) (last : Option (Nat × PacketM)) (st : ConnSt), 1 ≤ n →
      reqTries dev rand n lastT last st =
        ({ st with
            rcv := st.rcv + n,
            sent := st.sent ++ List.replicate n ⟨st.serial, false, none⟩ }, .error .timeoutE) := by
  intro n
  induction n with
  | zero => intro lastT last st h1; omega
  | succ n ih =>
    intro lastT last st _
    rw [reqTries]
    simp only [sendPkt, recvNext, h]
    cases n with
    | zero => simp [reqTries]
    | succ n =>
      rw [ih true last _ (by omega)]
      have harith : st.rcv + 1 + (n + 1) = st.rcv + (n + 1 + 1) := by omega
      simp [harith, List.replicate_succ, List.append_assoc]

theorem reqTries_sent_mono (dev : Nat → Outcome) (rand : Nat → Nat) :
    ∀ (n : Nat) (lastT : Bool) (last : Option (Nat × PacketM)) (st : ConnSt),
      ∃ ext, (reqTries dev rand n lastT last st).1.sent = st.sent ++ ext := by
  intro n
  induction n with
  | zero => intro lastT last st; exact ⟨[], by simp [reqTries]⟩
  | succ n ih =>
    intro lastT last st
    rw [reqTries]
    cases hdev : dev (sendPkt st ⟨st.serial, false, none⟩).rcv with
    | timeoutO =>
      dsimp only
      obtain ⟨ext, hext⟩ := ih true last (recvNext (sendPkt st ⟨st.serial, false, none⟩))
      refine ⟨⟨st.serial, false, none⟩ :: ext, ?_⟩
      rw [hext]
      simp [recvNext, sendPkt]
    | commO => dsimp only; exact ⟨[⟨st.serial, false, none⟩], by simp [recvNext, sendPkt]⟩
    | discO => dsimp only; exact ⟨[⟨st.serial, false, none⟩], by simp [recvNext, sendPkt]⟩
    | pktO p =>
      dsimp only
      obtain ⟨ext1, hext1⟩ :=
        sync_sent_mono dev rand 3 (recvNext (sendPkt st ⟨st.serial, false, none⟩))
      by_cases hs : p.sync = true
      · rw [if_pos hs]
        rcases hsy : sync dev rand 3 (recvNext (sendPkt st ⟨st.serial, false, none⟩)) with ⟨st3, e⟩
        rw [hsy] at hext1
        cases e with
        | none =>
          dsimp only
          obtain ⟨ext2, hext2⟩ := ih lastT
            (some ((sendPkt st ⟨st.serial, false, none⟩).serial, p)) st3
          refine ⟨⟨st.serial, false, none⟩ :: (ext1 ++ ext2), ?_⟩
          rw [hext2, hext1]
          simp [recvNext, sendPkt]
        | some err =>
          cases err with
          | timeoutE =>
            dsimp only
            obtain ⟨ext2, hext2⟩ := ih true
              (some ((sendPkt st ⟨st.serial, false, none⟩).serial, p)) st3
            refine ⟨⟨st.serial, false, none⟩ :: (ext1 ++ ext2), ?_⟩
            rw [hext2, hext1]
            simp [recvNext, sendPkt]
          | commE =>
            dsimp only
            refine ⟨⟨st.serial, false, none⟩ :: ext1, ?_⟩
            rw [hext1]
            simp [recvNext, sendPkt]
          | discE =>
            dsimp only
            refine ⟨⟨st.serial, false, none⟩ :: ext1, ?_⟩
            rw [hext1]
            simp [recvNext, sendPkt]
          | malformedE =>
            dsimp only
            refine ⟨⟨st.serial, false, none⟩ :: ext1, ?_⟩
            rw [hext1]
            simp [recvNext, sendPkt]
          | badgeE k =>
            dsimp only
            refine ⟨⟨st.serial, false, none⟩ :: ext1, ?_⟩
            rw [hext1]
            simp [recvNext, sendPkt]
      · rw [if_neg hs]
        exact ⟨[⟨st.serial, false, none⟩], by simp [recvNext, sendPkt]⟩

theorem reqTries_first_send (dev : Nat → Outcome) (rand : Nat → Nat) (n : Nat)
    (lastT : Bool) (last : Option (Nat × PacketM)) (st : ConnSt) :
    ∃ rest, (reqTries dev rand (n + 1) lastT last st).1.sent =
      st.sent ++ ⟨st.serial, false, none⟩ :: rest := by
  rw [reqTries]
  cases hdev : dev (sendPkt st ⟨st.serial, false, none⟩).rcv with
  | timeoutO =>
    dsimp only
    obtain ⟨ext, hext⟩ :=
      reqTries_sent_mono dev rand n true last (recvNext (sendPkt st ⟨st.serial, false, none⟩))
    exact ⟨ext, by rw [hext]; simp [recvNext, sendPkt]⟩
  | commO => dsimp only; exact ⟨[], by simp [recvNext, sendPkt]⟩
  | discO => dsimp only; exact ⟨[], by simp [recvNext, sendPkt]⟩
  | pktO p =>
    dsimp only
    by_cases hs : p.sync = true
    · rw [if_pos hs]
      obtain ⟨ext1, hext1⟩ :=
        sync_sent_mono dev rand 3 (recvNext (sendPkt st ⟨st.serial, false, none⟩))
      rcases hsy : sync dev rand 3 (recvNext (sendPkt st ⟨st.serial, false, none⟩)) with ⟨st3, e⟩
      rw [hsy] at hext1
      cases e with
      | none =>
        dsimp only
        obtain ⟨ext2, hext2⟩ := reqTries_sent_mono dev rand n lastT
          (some ((sendPkt st ⟨st.serial, false, none⟩).serial, p)) st3
        exact ⟨ext1 ++ ext2, by rw [hext2, hext1]; simp [recvNext, sendPkt]⟩
      | some err =>
        cases err with
        | timeoutE =>
          dsimp only
          obtain ⟨ext2, hext2⟩ := reqTries_sent_mono dev rand n true
            (some ((sendPkt st ⟨st.serial, false, none⟩).serial, p)) st3
          exact ⟨ext1 ++ ext2, by rw [hext2, hext1]; simp [recvNext, sendPkt]⟩
        | commE => exact ⟨ext1, by dsimp only; rw [hext1]; simp [recvNext, sendPkt]⟩
        | discE => exact ⟨ext1, by dsimp only; rw [hext1]; simp [recvNext, sendPkt]⟩
        | malformedE => exact ⟨ext1, by dsimp only; rw [hext1]; simp [recvNext, sendPkt]⟩
        | badgeE k => exact ⟨ext1, by dsimp only; rw [hext1]; simp [recvNext, sendPkt]⟩
    · rw [if_neg hs]
      exact ⟨[], by simp [recvNext, sendPkt]⟩

/-- simple_request when every receive outcome is a timeout: exactly three
request packets are sent, all with the same incremented serial, and the last
Timeout surfaces. -/
theorem simple_request_all_timeout (dev : Nat → Outcome) (rand : Nat → Nat)
    (st : ConnSt) (h : ∀ i, dev i = .timeoutO) :
    simple_request dev rand 3 st =
      ({ st with
          serial := (st.serial + 1) % 4294967296, rcv := st.rcv + 3,
          sent := st.sent ++
            List.replicate 3 ⟨(st.serial + 1) % 4294967296, false, none⟩ },
       .error .timeoutE) := by
  unfold simple_request
  rw [reqTries_all_timeout dev rand h 3 false none _ (by norm_num)]
  rfl

/-- simple_request when the first receive raises a CommunicationError: one
packet is sent and the error propagates with no re-send. -/
theorem simple_request_comm (dev : Nat → Outcome) (rand : Nat → Nat)
    (st : ConnSt) (h : dev st.rcv = .commO) :
    simple_request dev rand 3 st =
      ({ st with
          serial := (st.serial + 1) % 4294967296, rcv := st.rcv + 1,
          sent := st.sent ++ [⟨(st.serial + 1) % 4294967296, false, none⟩] },
       .error .commE) := by
  unfold simple_request
  rw [reqTries]
  simp only [sendPkt, recvNext]
  rw [h]
  rfl

/-- simple_request when the first receive raises a DisconnectedError. -/
theorem simple_request_disc (dev : Nat → Outcome) (rand : Nat → Nat)
    (st : ConnSt) (h : dev st.rcv = .discO) :
    simple_request dev rand 3 st =
      ({ st with
          serial := (st.serial + 1) % 4294967296, rcv := st.rcv + 1,
          sent := st.sent ++ [⟨(st.serial + 1) % 4294967296, false, none⟩] },
       .error .discE) := by
  unfold simple_request
  rw [reqTries]
  simp only [sendPkt, recvNext]
  rw [h]
  rfl

/-- simple_request receiving a non-sync reply packet on its first attempt:
one packet is sent, the loop breaks, and the response checks run on the
reply. -/
theorem simple_request_first_reply (dev : Nat → Outcome) (rand : Nat → Nat)
    (st : ConnSt) (p : PacketM) (hp : dev st.rcv = .pktO p) (hs : p.sync = false) :
    simple_request dev rand 3 st =
      ({ st with
          serial := (st.serial + 1) % 4294967296, rcv := st.rcv + 1,
          sent := st.sent ++ [⟨(st.serial + 1) % 4294967296, false, none⟩] },
       checkResponse (.ok ((st.serial + 1) % 4294967296, p))) := by
  unfold simple_request
  rw [reqTries]
  simp only [sendPkt, recvNext]
  rw [hp]
  dsimp only
  rw [if_neg (by simp [hs])]

/-- simple_request whose first reply is an unsolicited sync packet: the full
sync handshake runs (succeeding at its first attempt here) and the request is
re-sent carrying the serial chosen by the handshake, without an increment. -/
theorem simple_request_resync (dev : Nat → Outcome) (rand : Nat → Nat)
    (st : ConnSt) (p q : PacketM)
    (hp : dev st.rcv = .pktO p) (hps : p.sync = true)
    (hq : dev (st.rcv + 1) = .pktO q) (hqs : q.sync = true)
    (hqser : q.serial = rand st.rnd)
    (hr : dev (st.rcv + 2) = .pktO ⟨rand st.rnd, false, some ⟨.statusOk⟩⟩) :
    simple_request dev rand 3 st =
      (⟨rand st.rnd, st.rcv + 3, st.rnd + 1,
        st.sent ++ [⟨(st.serial + 1) % 4294967296, false, none⟩,
          ⟨rand st.rnd, true, none⟩, ⟨rand st.rnd, false, none⟩]⟩,
       .ok ⟨.statusOk⟩) := by
  unfold simple_request
  rw [reqTries]
  simp only [sendPkt, recvNext]
  rw [hp]
  dsimp only
  rw [if_pos hps]
  unfold sync
  rw [syncTries]
  simp only [sendPkt, recvNext]
  rw [hq]
  dsimp only
  rw [if_pos ⟨hqs, hqser⟩]
  dsimp only
  rw [reqTries]
  simp only [sendPkt, recvNext]
  have hr2 : dev (st.rcv + 1 + 1) = .pktO ⟨rand st.rnd, false, some ⟨.statusOk⟩⟩ := by
    have harith : st.rcv + 1 + 1 = st.rcv + 2 := by omega
    rw [harith]
    exact hr
  rw [hr2]
  dsimp only
  rw [if_neg (by simp)]
  have harith2 : st.rcv + 1 + 1 + 1 = st.rcv + 3 := by omega
  simp [checkResponse, statusToErr, harith2]

/-! ## Claim C4: sync handshake retry -/

/-- C4 counterexample: a sync run whose three attempts all time out sends
three sync packets that all carry the same serial, the single random draw
taken before the retry loop, refuting per-attempt re-randomisation; the run
surfaces the final Timeout. -/
theorem c4_sync_serial_counterexample :
    sync devTimeout randFive 3 ⟨0, 0, 0, []⟩ =
      (⟨5, 3, 1, [⟨5, true, none⟩, ⟨5, true, none⟩, ⟨5, true, none⟩]⟩,
       some .timeoutE) := by decide

/-- C4 amended: sync draws one random serial before the attempt loop and
reuses it unchanged on every attempt (every packet the handshake sends
carries that single draw); on timeout it retries up to 3 times total, and if
all three attempts time out it surfaces the last Timeout. -/
theorem c4_sync_retry_amended (dev : Nat → Outcome) (rand : Nat → Nat) (st : ConnSt) :
    (∀ p ∈ ((sync dev rand 3 st).1.sent).drop st.sent.length,
        p = ⟨rand st.rnd, true, none⟩) ∧
    ((∀ i, dev i = .timeoutO) →
      sync dev rand 3 st =
        ({ st with
            serial := rand st.rnd, rcv := st.rcv + 3, rnd := st.rnd + 1,
            sent := st.sent ++ List.replicate 3 ⟨rand st.rnd, true, none⟩ },
         some .timeoutE)) := by
  constructor
  · exact sync_serials dev rand 3 st
  · intro h
    unfold sync
    rw [syncTries_all_timeout dev h 3]

theorem c4_sync_retry_amended_witness :
    (∀ p ∈ ((sync devTimeout randFive 3 ⟨0, 0, 0, []⟩).1.sent).drop 0,
        p = ⟨5, true, none⟩) ∧
    sync devTimeout randFive 3 ⟨0, 0, 0, []⟩ =
      (⟨5, 0 + 3, 0 + 1, [] ++ List.replicate 3 ⟨5, true, none⟩⟩, some .timeoutE) :=
  ⟨(c4_sync_retry_amended devTimeout randFive ⟨0, 0, 0, []⟩).1,
   (c4_sync_retry_amended devTimeout randFive ⟨0, 0, 0, []⟩).2 (fun _ => rfl)⟩

/-! ## Claim C5: retry policy of simple_request -/

/-- C5: only Timeout is retried, up to the tries budget of 3 (three sends of
the same request packet); a CommunicationError or DisconnectedError from the
receive path, and every device-reported non-Ok status, surface immediately
after a single send with no re-send. -/
theorem c5_retry_policy (dev : Nat → Outcome) (rand : Nat → Nat) (st : ConnSt) :
    ((∀ i, dev i = .timeoutO) →
      simple_request dev rand 3 st =
        ({ st with
            serial := (st.serial + 1) % 4294967296, rcv := st.rcv + 3,
            sent := st.sent ++
              List.replicate 3 ⟨(st.serial + 1) % 4294967296, false, none⟩ },
         .error .timeoutE)) ∧
    (dev st.rcv = .commO →
      simple_request dev rand 3 st =
        ({ st with
            serial := (st.serial + 1) % 4294967296, rcv := st.rcv + 1,
            sent := st.sent ++ [⟨(st.serial + 1) % 4294967296, false, none⟩] },
         .error .commE)) ∧
    (dev st.rcv = .discO →
      simple_request dev rand 3 st =
        ({ st with
            serial := (st.serial + 1) % 4294967296, rcv := st.rcv + 1,
            sent := st.sent ++ [⟨(st.serial + 1) % 4294967296, false, none⟩] },
         .error .discE)) ∧
    (∀ (c : StatusCode) (k : BadgeErrKind), statusToErr c = some k →
      dev st.rcv = .pktO ⟨(st.serial + 1) % 4294967296, false, some ⟨c⟩⟩ →
      simple_request dev rand 3 st =
        ({ st with
            serial := (st.serial + 1) % 4294967296, rcv := st.rcv + 1,
            sent := st.sent ++ [⟨(st.serial + 1) % 4294967296, false, none⟩] },
         .error (.badgeE k))) := by
  refine ⟨simple_request_all_timeout dev rand st,
    simple_request_comm dev rand st,
    simple_request_disc dev rand st, ?_⟩
  intro c k hk hp
  rw [simple_request_first_reply dev rand st _ hp rfl]
  simp [checkResponse, hk]

theorem c5_retry_policy_witness :
    simple_request devTimeout randFive 3 ⟨0, 0, 0, []⟩ =
      (⟨1, 3, 0, List.replicate 3 ⟨1, false, none⟩⟩, .error .timeoutE) ∧
    simple_request devComm randFive 3 ⟨0, 0, 0, []⟩ =
      (⟨1, 1, 0, [⟨1, false, none⟩]⟩, .error .commE) ∧
    simple_request devNoSpace randFive 3 ⟨7, 0, 0, []⟩ =
      (⟨8, 1, 0, [⟨8, false, none⟩]⟩, .error (.badgeE .noSpace)) :=
  ⟨by have h := (c5_retry_policy devTimeout randFive ⟨0, 0, 0, []⟩).1 (fun _ => rfl)
      simpa using h,
   by have h := (c5_retry_policy devComm randFive ⟨0, 0, 0, []⟩).2.1 rfl
      simpa using h,
   by have h := (c5_retry_policy devNoSpace randFive ⟨7, 0, 0, []⟩).2.2.2
        .statusNoSpace .noSpace rfl rfl
      simpa using h⟩

/-! ## Claim C6: missing-response detection -/

/-- C6: a well-framed reply whose serial matches the request but whose
response field is absent raises MalformedResponseError, while a reply whose
response field is present with all-default contents (an Ok status) is
accepted and returned, so the connection distinguishes absence from presence
with default values. Modelled from the spec: the packet schema
(badgelink_pb2) is not under src/, and spec section 4.2 requires parsed
packets to preserve field presence, so the response field is an option. -/
theorem c6_missing_response (dev : Nat → Outcome) (rand : Nat → Nat) (st : ConnSt) :
    (dev st.rcv = .pktO ⟨(st.serial + 1) % 4294967296, false, none⟩ →
      simple_request dev rand 3 st =
        ({ st with
            serial := (st.serial + 1) % 4294967296, rcv := st.rcv + 1,
            sent := st.sent ++ [⟨(st.serial + 1) % 4294967296, false, none⟩] },
         .error .malformedE)) ∧
    (dev st.rcv = .pktO ⟨(st.serial + 1) % 4294967296, false, some ⟨.statusOk⟩⟩ →
      simple_request dev rand 3 st =
        ({ st with
            serial := (st.serial + 1) % 4294967296, rcv := st.rcv + 1,
            sent := st.sent ++ [⟨(st.serial + 1) % 4294967296, false, none⟩] },
         .ok ⟨.statusOk⟩)) := by
  constructor
  · intro hp
    rw [simple_request_first_reply dev rand st _ hp rfl]
    simp [checkResponse]
  · intro hp
    rw [simple_request_first_reply dev rand st _ hp rfl]
    simp [checkResponse, statusToErr]

theorem c6_missing_response_witness :
    simple_request devNoResp randFive 3 ⟨7, 0, 0, []⟩ =
      (⟨8, 1, 0, [⟨8, false, none⟩]⟩, .error .malformedE) ∧
    simple_request devOk randFive 3 ⟨7, 0, 0, []⟩ =
      (⟨8, 1, 0, [⟨8, false, none⟩]⟩, .ok ⟨.statusOk⟩) :=
  ⟨by have h := (c6_missing_response devNoResp randFive ⟨7, 0, 0, []⟩).1 rfl
      simpa using h,
   by have h := (c6_missing_response devOk randFive ⟨7, 0, 0, []⟩).2 rfl
      simpa using h⟩

/-! ## Claim C8: serial correlation invariant -/

/-- C8 counterexample: starting from serial_no 10, an unsolicited sync packet
makes simple_request resync (drawing serial 999) and re-send the request;
the re-sent request packet (the third packet on the wire, a non-sync packet)
carries serial 999, which is neither the pre-call counter plus one (12) nor
the post-sync counter plus one (1000 mod 2^32), refuting the claim for
re-sends after a resync. -/
theorem c8_serial_counterexample :
    (simple_request devResync randBig 3 ⟨10, 0, 0, []⟩).1.sent =
      [⟨11, false, none⟩, ⟨999, true, none⟩, ⟨999, false, none⟩] ∧
    (simple_request devResync randBig 3 ⟨10, 0, 0, []⟩).2 = .ok ⟨.statusOk⟩ ∧
    ((simple_request devResync randBig 3 ⟨10, 0, 0, []⟩).1.sent.getD 2
        ⟨0, true, none⟩).sync = false ∧
    ((simple_request devResync randBig 3 ⟨10, 0, 0, []⟩).1.sent.getD 2
        ⟨0, true, none⟩).serial ≠ (10 + 1 + 1) % 4294967296 ∧
    ((simple_request devResync randBig 3 ⟨10, 0, 0, []⟩).1.sent.getD 2
        ⟨0, true, none⟩).serial ≠ (999 + 1) % 4294967296 := by decide

/-- C8 amended: the first packet of each simple_request carries serial equal
to the previous serial_no plus 1 modulo 2^32, and a timeout re-send repeats
exactly that serial; but a re-send after an unsolicited sync packet carries
the serial_no set by the sync handshake (the fresh random draw) without any
increment. -/
theorem c8_serial_amended (dev : Nat → Outcome) (rand : Nat → Nat) (st : ConnSt) :
    (∃ rest, (simple_request dev rand 3 st).1.sent =
        st.sent ++ ⟨(st.serial + 1) % 4294967296, false, none⟩ :: rest) ∧
    ((∀ i, dev i = .timeoutO) →
      (simple_request dev rand 3 st).1.sent =
        st.sent ++ List.replicate 3 ⟨(st.serial + 1) % 4294967296, false, none⟩) ∧
    (∀ p q : PacketM, dev st.rcv = .pktO p → p.sync = true →
      dev (st.rcv + 1) = .pktO q → q.sync = true → q.serial = rand st.rnd →
      dev (st.rcv + 2) = .pktO ⟨rand st.rnd, false, some ⟨.statusOk⟩⟩ →
      (simple_request dev rand 3 st).1.sent =
        st.sent ++ [⟨(st.serial + 1) % 4294967296, false, none⟩,
          ⟨rand st.rnd, true, none⟩, ⟨rand st.rnd, false, none⟩] ∧
      (simple_request dev rand 3 st).2 = .ok ⟨.statusOk⟩) := by
  refine ⟨?_, ?_, ?_⟩
  · exact reqTries_first_send dev rand 2 false none
      { st with serial := (st.serial + 1) % 4294967296 }
  · intro h
    rw [simple_request_all_timeout dev rand st h]
  · intro p q hp hps hq hqs hqser hr
    rw [simple_request_resync dev rand st p q hp hps hq hqs hqser hr]
    exact ⟨rfl, rfl⟩

theorem c8_serial_amended_witness :
    (∃ rest, (simple_request devResyncW randFive 3 ⟨40, 0, 0, []⟩).1.sent =
        [] ++ ⟨41, false, none⟩ :: rest) ∧
    ((simple_request devResyncW randFive 3 ⟨40, 0, 0, []⟩).1.sent =
        [] ++ [⟨41, false, none⟩, ⟨5, true, none⟩, ⟨5, false, none⟩] ∧
     (simple_request devResyncW randFive 3 ⟨40, 0, 0, []⟩).2 = .ok ⟨.statusOk⟩) :=
  ⟨(c8_serial_amended devResyncW randFive ⟨40, 0, 0, []⟩).1,
   (c8_serial_amended devResyncW randFive ⟨40, 0, 0, []⟩).2.2
     ⟨77, true, none⟩ ⟨5, true, none⟩ rfl rfl rfl rfl rfl rfl⟩

/-! ## Claim C9: status-code mapping -/

/-- C9: the ten non-Ok status codes are mapped one-to-one onto ten distinct
error kinds, and StatusIllegalState maps to the IllegalStateError kind, which
is a different kind than NotFoundError; but the code attribute
IllegalStateError carries is StatusNotFound (badgelink.py line 118), the very
code NotFoundError carries, contradicting the claim that the IllegalState
kind carries a different code than the NotFound kind. -/
theorem c9_status_mapping_bug :
    ([StatusCode.statusInternalError, .statusMalformed, .statusNotSupported,
      .statusNotFound, .statusIllegalState, .statusNoSpace, .statusNotEmpty,
      .statusIsFile, .statusIsDir, .statusExists].map statusToErr).Nodup ∧
    statusToErr .statusIllegalState = some .illegalState ∧
    BadgeErrKind.illegalState ≠ BadgeErrKind.notFound ∧
    errCode .illegalState = .statusNotFound ∧
    errCode .notFound = .statusNotFound := by decide

/-! ## Upload data-phase lemmas -/

theorem range'_add_map : ∀ (m s t step : Nat),
    List.range' (s + t) m step = (List.range' t m step).map (fun x => x + s) := by
  intro m
  induction m with
  | zero => intro s t step; rfl
  | succ m ih =>
    intro s t step
    rw [List.range'_succ, List.range'_succ, List.map_cons]
    congr 1
    · omega
    · rw [show s + t + step = s + (t + step) from by omega]
      exact ih s (t + step) step

theorem uploadChunkList_length (file : List Nat) :
    (uploadChunkList file).length =
      (file.length + (CHUNK_MAX_SIZE - 1)) / CHUNK_MAX_SIZE := by
  simp [uploadChunkList]

theorem uploadChunkList_get (file : List Nat) (i : Nat)
    (h : i < (uploadChunkList file).length) :
    (uploadChunkList file)[i] =
      (CHUNK_MAX_SIZE * i, (file.drop (CHUNK_MAX_SIZE * i)).take CHUNK_MAX_SIZE) := by
  simp [uploadChunkList, List.getElem_range']

theorem uploadChunkList_cons (file : List Nat) (h : file ≠ []) :
    uploadChunkList file =
      (0, file.take CHUNK_MAX_SIZE) ::
        (uploadChunkList (file.drop CHUNK_MAX_SIZE)).map
          (fun c => (c.1 + CHUNK_MAX_SIZE, c.2)) := by
  have hlen : 1 ≤ file.length := by
    cases file with
    | nil => simp at h
    | cons a as => simp
  have hn : (file.length + (CHUNK_MAX_SIZE - 1)) / CHUNK_MAX_SIZE =
      ((file.drop CHUNK_MAX_SIZE).length + (CHUNK_MAX_SIZE - 1)) / CHUNK_MAX_SIZE + 1 := by
    simp only [List.length_drop, CHUNK_MAX_SIZE]
    omega
  unfold uploadChunkList
  rw [hn, List.range'_succ, List.map_cons, List.drop_zero]
  rw [show (0 + CHUNK_MAX_SIZE) = CHUNK_MAX_SIZE + 0 from by omega]
  rw [range'_add_map _ CHUNK_MAX_SIZE 0 CHUNK_MAX_SIZE]
  rw [List.map_map, List.map_map]
  refine congrArg (_ :: ·) (List.map_congr_left ?_)
  intro pos _
  simp only [Function.comp_apply, List.drop_drop]
  rw [Nat.add_comm CHUNK_MAX_SIZE pos]

theorem uploadChunkList_sum : ∀ (n : Nat) (file : List Nat), file.length ≤ n →
    ((uploadChunkList file).map (fun c => c.2.length)).sum = file.length := by
  intro n
  induction n with
  | zero =>
    intro file h
    have hf : file = [] := List.length_eq_zero.mp (Nat.le_zero.mp h)
    subst hf
    rfl
  | succ n ih =>
    intro file h
    by_cases hf : file = []
    · subst hf; rfl
    · rw [uploadChunkList_cons file hf, List.map_cons, List.map_map, List.sum_cons]
      have hdrop := ih (file.drop CHUNK_MAX_SIZE)
        (by simp only [List.length_drop, CHUNK_MAX_SIZE]; omega)
      have hmap : ((fun c : Nat × List Nat => c.2.length) ∘
          fun c : Nat × List Nat => (c.1 + CHUNK_MAX_SIZE, c.2)) =
          (fun c : Nat × List Nat => c.2.length) := rfl
      rw [hmap, hdrop]
      have hfl : 1 ≤ file.length := by
        cases file with
        | nil => simp at hf
        | cons a as => simp
      simp only [List.length_take, List.length_drop, CHUNK_MAX_SIZE] at *
      omega

theorem uploadChunkList_prevsum (file : List Nat) :
    ∀ (i : Nat), CHUNK_MAX_SIZE * i ≤ file.length →
      (((uploadChunkList file).map (fun c => c.2.length)).take i).sum =
        CHUNK_MAX_SIZE * i := by
  intro i
  induction i with
  | zero => intro _; simp
  | succ i ih =>
    intro hle
    have hi : i < ((uploadChunkList file).map (fun c => c.2.length)).length := by
      rw [List.length_map, uploadChunkList_length]
      simp only [CHUNK_MAX_SIZE] at *
      omega
    rw [List.sum_take_succ _ i hi, ih (by simp only [CHUNK_MAX_SIZE] at *; omega)]
    have hgi : ((uploadChunkList file).map (fun c => c.2.length))[i] = CHUNK_MAX_SIZE := by
      rw [List.getElem_map, uploadChunkList_get file i (by simpa using hi)]
      simp only [List.length_take, List.length_drop, CHUNK_MAX_SIZE] at *
      omega
    rw [hgi]
    simp only [CHUNK_MAX_SIZE]
    omega

theorem uploadMsgs_length (file : List Nat) :
    (uploadMsgs file).length = (uploadChunkList file).length + 2 := by
  simp [uploadMsgs]

theorem sendAll_all_ok (dev : Nat → StatusCode) :
    ∀ (ms : List UploadMsg) (i : Nat),
      (∀ j, j < ms.length → dev (i + j) = .statusOk) →
      sendAll dev ms i = (ms, none) := by
  intro ms
  induction ms with
  | nil => intro i _; rfl
  | cons m ms ih =>
    intro i h
    rw [sendAll, if_pos (by simpa using h 0 (by simp))]
    rw [ih (i + 1) (fun j hj => by
      rw [show i + 1 + j = i + (j + 1) from by omega]
      exact h (j + 1) (by simpa using hj))]

theorem sendAll_first_bad (dev : Nat → StatusCode) :
    ∀ (ms : List UploadMsg) (i k : Nat), k < ms.length →
      (∀ j, j < k → dev (i + j) = .statusOk) → dev (i + k) ≠ .statusOk →
      sendAll dev ms i = (ms.take (k + 1), some (dev (i + k))) := by
  intro ms
  induction ms with
  | nil => intro i k hk; simp at hk
  | cons m ms ih =>
    intro i k hk hok hbad
    cases k with
    | zero =>
      rw [sendAll, if_neg (by simpa using hbad)]
      simp
    | succ k =>
      rw [sendAll, if_pos (by simpa using hok 0 (by omega))]
      rw [ih (i + 1) k (by simpa using hk)
        (fun j hj => by
          rw [show i + 1 + j = i + (j + 1) from by omega]
          exact hok (j + 1) (by omega))
        (by
          rw [show i + 1 + k = i + (k + 1) from by omega]
          exact hbad)]
      rw [show i + 1 + k = i + (k + 1) from by omega]
      simp [List.take_succ_cons]

theorem finish_not_mem_chunkPrefix (file : List Nat) (k : Nat)
    (hk : k + 1 ≤ (uploadChunkList file).length + 1) :
    UploadMsg.finishMsg ∉ (uploadMsgs file).take (k + 1) := by
  intro hmem
  have h1 : (uploadMsgs file).take (k + 1) =
      ((uploadMsgs file).take ((uploadChunkList file).length + 1)).take (k + 1) := by
    rw [List.take_take]
    congr 1
    omega
  rw [h1] at hmem
  have hmem2 := List.mem_of_mem_take hmem
  have h2 : (uploadMsgs file).take ((uploadChunkList file).length + 1) =
      .initMsg file.length (crc32 file) ::
        (uploadChunkList file).map (fun c => .chunkMsg c.1 c.2) := by
    unfold uploadMsgs
    rw [List.take_succ_cons]
    congr 1
    rw [List.take_left' (by simp)]
  rw [h2] at hmem2
  simp at hmem2

/-! ## Claim C2: upload data phase -/

/-- C2: the data-phase chunks carry positions 0, 4096, 8192, ..., each equal
to both 4096 times the chunk index and the sum of the lengths of the
previously sent chunks; no chunk exceeds 4096 bytes, the chunk lengths sum
exactly to the file size; the Finish request is sent only when the
initiation and every chunk were acknowledged Ok, and a non-Ok status on any
of them surfaces that status and suppresses the Finish. -/
theorem c2_upload_data_phase (file : List Nat) (dev : Nat → StatusCode) :
    (∀ (i : Nat) (h : i < (uploadChunkList file).length),
      (uploadChunkList file)[i].1 = CHUNK_MAX_SIZE * i ∧
      (uploadChunkList file)[i].1 =
        (((uploadChunkList file).map (fun c => c.2.length)).take i).sum ∧
      (uploadChunkList file)[i].2.length ≤ CHUNK_MAX_SIZE) ∧
    ((uploadChunkList file).map (fun c => c.2.length)).sum = file.length ∧
    ((∀ j, j < (uploadMsgs file).length → dev j = .statusOk) →
      uploadRun file dev = (uploadMsgs file, none)) ∧
    (UploadMsg.finishMsg ∈ (uploadRun file dev).1 →
      ∀ j, j < (uploadChunkList file).length + 1 → dev j = .statusOk) ∧
    (∀ k, k < (uploadChunkList file).length + 1 →
      (∀ j, j < k → dev j = .statusOk) → dev k ≠ .statusOk →
      uploadRun file dev = ((uploadMsgs file).take (k + 1), some (dev k)) ∧
      UploadMsg.finishMsg ∉ (uploadRun file dev).1) := by
  have hmul : ∀ i, i < (uploadChunkList file).length → CHUNK_MAX_SIZE * i ≤ file.length := by
    intro i hi
    rw [uploadChunkList_length] at hi
    simp only [CHUNK_MAX_SIZE] at *
    omega
  refine ⟨?_, uploadChunkList_sum file.length file (le_refl _), ?_, ?_, ?_⟩
  · intro i h
    rw [uploadChunkList_get file i h,
      uploadChunkList_prevsum file i (hmul i h)]
    refine ⟨rfl, rfl, ?_⟩
    simp only [List.length_take]
    omega
  · intro h
    unfold uploadRun
    exact sendAll_all_ok dev (uploadMsgs file) 0 (fun j hj => by
      rw [Nat.zero_add]
      exact h j hj)
  · intro hfin j hj
    by_contra hbad
    have hex : ∃ m, dev m ≠ .statusOk := ⟨j, hbad⟩
    have hk1 : Nat.find hex ≤ j := Nat.find_min' hex hbad
    have hkbad : dev (Nat.find hex) ≠ .statusOk := Nat.find_spec hex
    have hkok : ∀ m, m < Nat.find hex → dev m = .statusOk := by
      intro m hm
      by_contra hmbad
      exact absurd (Nat.find_min' hex hmbad) (by omega)
    have hrun : uploadRun file dev =
        ((uploadMsgs file).take (Nat.find hex + 1), some (dev (Nat.find hex))) := by
      unfold uploadRun
      have hsa := sendAll_first_bad dev (uploadMsgs file) 0 (Nat.find hex)
        (by rw [uploadMsgs_length]; omega)
        (fun m hm => by rw [Nat.zero_add]; exact hkok m hm)
        (by rw [Nat.zero_add]; exact hkbad)
      simpa using hsa
    rw [hrun] at hfin
    exact finish_not_mem_chunkPrefix file (Nat.find hex) (by omega) hfin
  · intro k hkn hok hbad
    have hrun : uploadRun file dev =
        ((uploadMsgs file).take (k + 1), some (dev k)) := by
      unfold uploadRun
      have hsa := sendAll_first_bad dev (uploadMsgs file) 0 k
        (by rw [uploadMsgs_length]; omega)
        (fun m hm => by rw [Nat.zero_add]; exact hok m hm)
        (by rw [Nat.zero_add]; exact hbad)
      simpa using hsa
    refine ⟨hrun, ?_⟩
    rw [hrun]
    exact finish_not_mem_chunkPrefix file k (by omega)

theorem c2_upload_data_phase_witness :
    (2 < (uploadChunkList (List.replicate 10000 7)).length + 1 ∧
     (∀ j, j < 2 → devUpNoSpace j = .statusOk) ∧ devUpNoSpace 2 ≠ .statusOk) ∧
    (uploadRun (List.replicate 10000 7) devUpNoSpace =
      ((uploadMsgs (List.replicate 10000 7)).take 3, some (devUpNoSpace 2)) ∧
     UploadMsg.finishMsg ∉ (uploadRun (List.replicate 10000 7) devUpNoSpace).1) ∧
    ((uploadChunkList (List.replicate 10000 7)).map (fun c => c.2.length)).sum = 10000 :=
  ⟨⟨by rw [uploadChunkList_length]; norm_num [CHUNK_MAX_SIZE], by decide, by decide⟩,
   (c2_upload_data_phase (List.replicate 10000 7) devUpNoSpace).2.2.2.2 2
     (by rw [uploadChunkList_length]; norm_num [CHUNK_MAX_SIZE]) (by decide) (by decide),
   by
     have h := (c2_upload_data_phase (List.replicate 10000 7) devUpNoSpace).2.1
     rw [h, List.length_replicate]⟩

/-! ## Claim C3: download position verification -/

theorem dlLoop_fin_iff (size : Nat) :
    ∀ (chunks : List (Nat × List Nat)) (pos : Nat),
      ((dlLoop size chunks pos).fin = true ↔ (dlLoop size chunks pos).err = none) := by
  intro chunks
  induction chunks with
  | nil =>
    intro pos
    rw [dlLoop]
    by_cases hsz : size ≤ pos
    · rw [if_pos hsz]; simp
    · rw [if_neg hsz]; simp
  | cons c rest ih =>
    rcases c with ⟨p, d⟩
    intro pos
    rw [dlLoop]
    by_cases hsz : size ≤ pos
    · rw [if_pos hsz]; simp
    · rw [if_neg hsz]
      dsimp only
      by_cases hp : p = pos
      · rw [if_pos hp]
        exact ih (pos + d.length)
      · rw [if_neg hp]; simp

theorem dlLoop_complete (size : Nat) :
    ∀ (chunks : List (Nat × List Nat)) (pos : Nat),
      (dlLoop size chunks pos).err = none →
      size ≤ pos + (dlLoop size chunks pos).written.length := by
  intro chunks
  induction chunks with
  | nil =>
    intro pos h
    rw [dlLoop] at h ⊢
    by_cases hsz : size ≤ pos
    · rw [if_pos hsz]
      simp
      omega
    · rw [if_neg hsz] at h
      simp at h
  | cons c rest ih =>
    rcases c with ⟨p, d⟩
    intro pos h
    rw [dlLoop] at h ⊢
    by_cases hsz : size ≤ pos
    · rw [if_pos hsz]
      simp
      omega
    · rw [if_neg hsz] at h ⊢
      dsimp only at h ⊢
      by_cases hp : p = pos
      · rw [if_pos hp] at h ⊢
        have := ih (pos + d.length) h
        simp only [List.length_append]
        omega
      · rw [if_neg hp] at h
        simp at h

theorem dlLoop_exact (size : Nat) :
    ∀ (chunks : List (Nat × List Nat)) (pos : Nat), pos ≤ size →
      (∀ c ∈ chunks, c.2.length ≤ size - c.1) →
      (dlLoop size chunks pos).err = none →
      pos + (dlLoop size chunks pos).written.length = size := by
  intro chunks
  induction chunks with
  | nil =>
    intro pos hle _ h
    rw [dlLoop] at h ⊢
    by_cases hsz : size ≤ pos
    · rw [if_pos hsz]
      simp
      omega
    · rw [if_neg hsz] at h
      simp at h
  | cons c rest ih =>
    rcases c with ⟨p, d⟩
    intro pos hle hsm h
    rw [dlLoop] at h ⊢
    by_cases hsz : size ≤ pos
    · rw [if_pos hsz]
      simp
      omega
    · rw [if_neg hsz] at h ⊢
      dsimp only at h ⊢
      by_cases hp : p = pos
      · rw [if_pos hp] at h ⊢
        have hd : d.length ≤ size - p := hsm (p, d) (by simp)
        have := ih (pos + d.length) (by omega)
          (fun c hc => hsm c (by simp [hc])) h
        simp only [List.length_append]
        omega
      · rw [if_neg hp] at h
        simp at h

/-- C3: on every received chunk a position mismatch raises
MalformedResponseError("Incorrect chunk position") with none of that chunk's
data written, a matching chunk has its data appended, and the final Finish
request is sent exactly when the loop completes without error, which happens
exactly when the cumulative received length reaches the size reported at
initiation (equalling it exactly whenever the device never sends past the
end of the file). -/
theorem c3_download_position (size : Nat) (chunks : List (Nat × List Nat)) (pos : Nat) :
    (∀ (p : Nat) (d : List Nat) (rest : List (Nat × List Nat)),
      pos < size → p ≠ pos →
      dlLoop size ((p, d) :: rest) pos = ⟨[], some .badPosition, false⟩) ∧
    (∀ (p : Nat) (d : List Nat) (rest : List (Nat × List Nat)),
      pos < size → p = pos →
      (dlLoop size ((p, d) :: rest) pos).written =
        d ++ (dlLoop size rest (pos + d.length)).written) ∧
    ((dlLoop size chunks pos).fin = true ↔ (dlLoop size chunks pos).err = none) ∧
    ((dlLoop size chunks pos).err = none →
      size ≤ pos + (dlLoop size chunks pos).written.length) ∧
    (pos ≤ size → (∀ c ∈ chunks, c.2.length ≤ size - c.1) →
      (dlLoop size chunks pos).err = none →
      pos + (dlLoop size chunks pos).written.length = size) := by
  refine ⟨?_, ?_, dlLoop_fin_iff size chunks pos, dlLoop_complete size chunks pos,
    dlLoop_exact size chunks pos⟩
  · intro p d rest hsz hp
    rw [dlLoop, if_neg (by omega)]
    dsimp only
    rw [if_neg hp]
  · intro p d rest hsz hp
    rw [dlLoop, if_neg (by omega)]
    dsimp only
    rw [if_pos hp]

theorem c3_download_position_witness :
    (0 < 100 ∧ (4096 : Nat) ≠ 0 ∧
      dlLoop 100 [(4096, [1, 2, 3])] 0 = ⟨[], some .badPosition, false⟩) ∧
    ((dlLoop 100 [(0, List.replicate 60 1), (60, List.replicate 40 2)] 0).fin = true ↔
      (dlLoop 100 [(0, List.replicate 60 1), (60, List.replicate 40 2)] 0).err = none) ∧
    (0 ≤ 100 ∧
      0 + (dlLoop 100 [(0, List.replicate 60 1), (60, List.replicate 40 2)] 0).written.length = 100) :=
  ⟨⟨by decide, by decide,
    (c3_download_position 100 [] 0).1 4096 [1, 2, 3] [] (by decide) (by decide)⟩,
   (c3_download_position 100 [(0, List.replicate 60 1), (60, List.replicate 40 2)] 0).2.2.1,
   ⟨by decide,
    (c3_download_position 100 [(0, List.replicate 60 1), (60, List.replicate 40 2)] 0).2.2.2.2
      (by decide) (by decide) (by decide)⟩⟩

/-! ## Claim C10: paginated list termination -/

theorem listLoopF_term (dev : Nat → List Nat × Nat) (N : Nat)
    (htot : ∀ off, (dev off).2 = N)
    (hne : ∀ off, off < N → (dev off).1 ≠ []) :
    ∀ (fuel off : Nat), off < N → N ≤ off + fuel →
      (listLoopF dev fuel off).isSome = true := by
  intro fuel
  induction fuel with
  | zero => intro off h1 h2; omega
  | succ fuel ih =>
    intro off h1 h2
    rw [listLoopF]
    by_cases hstop : (dev off).2 ≤ off + (dev off).1.length
    · rw [if_pos hstop]; rfl
    · rw [if_neg hstop]
      have hlen : 1 ≤ (dev off).1.length := by
        rcases hh : (dev off).1 with _ | ⟨a, as⟩
        · exact absurd hh (hne off h1)
        · simp
      rw [htot] at hstop
      have hrec := ih (off + (dev off).1.length) (by omega) (by omega)
      rcases hres : listLoopF dev fuel (off + (dev off).1.length) with _ | v
      · rw [hres] at hrec
        simp at hrec
      · rfl

theorem listLoopF_stuck (dev : Nat → List Nat × Nat) (off : Nat)
    (hempty : (dev off).1 = []) (hlt : off < (dev off).2) :
    ∀ fuel, listLoopF dev fuel off = none := by
  intro fuel
  induction fuel with
  | zero => rfl
  | succ fuel ih =>
    rw [listLoopF]
    simp only [hempty, List.length_nil, Nat.add_zero]
    rw [if_neg (by omega), ih]
    rfl

theorem appfsLoopF_term (dev : Nat → List Nat × Nat) (N : Nat)
    (htot : ∀ off, (dev off).2 = N)
    (hne : ∀ off, off < N → (dev off).1 ≠ []) :
    ∀ (fuel : Nat) (acc : List Nat), N ≤ acc.length + fuel →
      (appfsLoopF dev fuel acc N).isSome = true := by
  intro fuel
  induction fuel with
  | zero =>
    intro acc h
    rw [appfsLoopF, if_pos (by omega)]
    rfl
  | succ fuel ih =>
    intro acc h
    rw [appfsLoopF]
    by_cases hstop : N ≤ acc.length
    · rw [if_pos hstop]; rfl
    · rw [if_neg hstop]
      have hlen : 1 ≤ (dev acc.length).1.length := by
        rcases hh : (dev acc.length).1 with _ | ⟨a, as⟩
        · exact absurd hh (hne acc.length (by omega))
        · simp
      rw [htot]
      exact ih (acc ++ (dev acc.length).1) (by simp only [List.length_append]; omega)

theorem appfsLoopF_stuck (dev : Nat → List Nat × Nat) (N : Nat)
    (htot : ∀ off, (dev off).2 = N) :
    ∀ (acc : List Nat), acc.length < N → (dev acc.length).1 = [] →
      ∀ fuel, appfsLoopF dev fuel acc N = none := by
  intro acc hlt hempty fuel
  induction fuel with
  | zero => rw [appfsLoopF, if_neg (by omega)]
  | succ fuel ih =>
    rw [appfsLoopF, if_neg (by omega)]
    simp only [hempty, List.append_nil]
    rw [htot]
    exact ih

/-- C10: the list-traversal loops of nvs_list and fs_list (listLoopF) and of
appfs_list (appfsLoopF) terminate whenever the device reports one fixed
total and returns a non-empty page at every offset below the total; if the
device returns an empty page while the collected count is below the total,
no amount of fuel makes the loop stop, which models non-termination. -/
theorem c10_list_termination (dev : Nat → List Nat × Nat) (N : Nat) :
    ((∀ off, (dev off).2 = N) → (∀ off, off < N → (dev off).1 ≠ []) →
      (listLoopF dev (N + 1) 0).isSome = true) ∧
    (∀ off, (dev off).1 = [] → off < (dev off).2 →
      ∀ fuel, listLoopF dev fuel off = none) ∧
    ((∀ off, (dev off).2 = N) → (∀ off, off < N → (dev off).1 ≠ []) →
      (appfs_list_run dev N).isSome = true) ∧
    ((∀ off, (dev off).2 = N) → ∀ acc : List Nat, acc.length < N →
      (dev acc.length).1 = [] → ∀ fuel, appfsLoopF dev fuel acc N = none) := by
  refine ⟨?_, ?_, ?_, ?_⟩
  · intro htot hne
    by_cases hN : 0 < N
    · exact listLoopF_term dev N htot hne (N + 1) 0 hN (by omega)
    · rw [listLoopF, if_pos (by rw [htot]; omega)]
      rfl
  · exact fun off he hlt => listLoopF_stuck dev off he hlt
  · intro htot hne
    unfold appfs_list_run
    rw [htot]
    exact appfsLoopF_term dev N htot hne N (dev 0).1 (by omega)
  · exact fun htot acc hlt he => appfsLoopF_stuck dev N htot acc hlt he

theorem c10_list_termination_witness :
    ((∀ off, (devPages off).2 = 5) ∧ (∀ off, off < 5 → (devPages off).1 ≠ []) ∧
      (devEmptyPage 0).1 = [] ∧ 0 < (devEmptyPage 0).2 ∧
      ([] : List Nat).length < 5 ∧ (devEmptyPage 0).1 = []) ∧
    (listLoopF devPages 6 0).isSome = true ∧
    (∀ fuel, listLoopF devEmptyPage fuel 0 = none) ∧
    (appfs_list_run devPages 5).isSome = true ∧
    (∀ fuel, appfsLoopF devEmptyPage fuel [] 5 = none) :=
  ⟨⟨fun _ => rfl, fun off _ => by simp [devPages], rfl, by decide, by decide, rfl⟩,
   (c10_list_termination devPages 5).1 (fun _ => rfl)
     (fun off hoff => by simp [devPages]),
   (c10_list_termination devEmptyPage 5).2.1 0 rfl (by decide),
   (c10_list_termination devPages 5).2.2.1 (fun _ => rfl)
     (fun off hoff => by simp [devPages]),
   (c10_list_termination devEmptyPage 5).2.2.2 (fun _ => rfl) [] (by decide) rfl⟩

end Badgelink
